import Mathlib

/-!
Shallow embedding of `repo_worker/tuf/repository.py` (class `MetadataRepository`).

Modelling conventions:
* `datetime` values are integers counting microseconds; `datetime.now().replace(microsecond=0)`
  floors to a whole second; `timedelta(days=d)` / `timedelta(hours=h)` are the corresponding
  microsecond counts.
* Python dicts (`snapshot.signed.meta`, `bins_role.signed.targets`, `metadata.signatures`,
  the grouping dict in `add_targets`) are insertion-ordered association lists; an update
  replaces the existing entry in place, a new key is appended at the end.
* The storage backend keeps, per role name, the latest metadata version (`_load`'s view) and,
  per file name, every written file (`to_file`'s view).  `_persist` updates both: the documents
  written by this worker always carry the highest version, so the newly written document is
  what `_load` returns next.
* Fallible Python code (`Metadata.from_file` raising `StorageError`, dict indexing raising
  `KeyError`, attribute access on `None` raising `AttributeError`) is modelled with
  `Except PyError`; every operation returns its result together with the storage state at the
  moment it returned or raised, since Python storage mutations are not rolled back on error.
-/

namespace RepoWorker

/-- `datetime.now().replace(microsecond=0)`: floor a microsecond timestamp to the second. -/
def replaceMicrosecond (t : Int) : Int := t - t % 1000000

/-- `timedelta(days = d)` in microseconds. -/
def daysToMicro (d : Int) : Int := d * 86400000000

/-- `timedelta(hours = h)` in microseconds. -/
def hoursToMicro (h : Int) : Int := h * 3600000000

/-- Python `str.startswith` (spelled out over the character lists so that it evaluates
inside the kernel). -/
def pyStartsWith (s pre : String) : Bool := pre.data.isPrefixOf s.data

/-- Python dict lookup on an insertion-ordered association list. -/
def dictGet {α : Type} : List (String × α) → String → Option α
  | [], _ => none
  | p :: rest, k => if p.1 = k then some p.2 else dictGet rest k

/-- Python dict update: replace the entry in place, or append a new key at the end. -/
def dictSet {α : Type} : List (String × α) → String → α → List (String × α)
  | [], k, v => [(k, v)]
  | p :: rest, k, v => if p.1 = k then (k, v) :: rest else p :: dictSet rest k v

/-- `tuf.api.metadata.MetaFile` (only the version field is used by this worker). -/
structure MetaFile where
  version : Int
deriving DecidableEq, Repr

/-- `tuf.api.metadata.TargetFile`: path plus the (otherwise opaque) artifact info dict. -/
structure TargetFile where
  path : String
  info : String
deriving DecidableEq, Repr

/-- `TargetFile.from_dict(target["info"], target["path"])`. -/
def TargetFile.from_dict (info : String) (path : String) : TargetFile :=
  { path := path, info := info }

/-- One element of the `targets` argument of `add_targets`: `{"path": ..., "info": ...}`. -/
structure TargetDict where
  path : String
  info : String
deriving DecidableEq, Repr

/-- Model of `tuf.api.metadata.SuccinctRoles` (external python-tuf library): the list of
delegated bin names (`get_roles()`) and the deterministic path-to-bin assignment
(`get_role_for_target`), represented as a finite table so that it is executable data. -/
structure SuccinctRolesModel where
  roles : List String
  binFor : List (String × String)
deriving DecidableEq, Repr

/-- `succinct_roles.get_role_for_target(path)` (external library hash, modelled abstractly). -/
def SuccinctRolesModel.get_role_for_target (m : SuccinctRolesModel) (path : String) : String :=
  (dictGet m.binFor path).getD ""

/-- `tuf.api.metadata.Delegations` (only `succinct_roles` is used by this worker). -/
structure DelegationsModel where
  succinct_roles : SuccinctRolesModel
deriving DecidableEq, Repr

/-- The signed portion of a metadata document.  The role-specific payloads
(`Timestamp.snapshot_meta`, `Snapshot.meta`, `Targets.targets`/`Targets.delegations`) are
modelled as fields of one record; each role reads and writes only its own fields, mirroring
the python-tuf classes. -/
structure Signed where
  version : Int
  expires : Int
  snapshot_meta : MetaFile
  meta : List (String × MetaFile)
  targets : List (String × TargetFile)
  delegations : Option DelegationsModel
deriving DecidableEq, Repr

/-- A signing key from the key vault (identified by its keyid). -/
structure Key where
  keyid : String
deriving DecidableEq, Repr

/-- A signature as produced by `SSlibSigner`: keyed by keyid, covering the serialized
signed portion at the moment `Metadata.sign` ran. -/
structure Signature where
  keyid : String
  signedOver : Signed
deriving DecidableEq, Repr

/-- The Python expression `snapshot.signed.meta[f"{bins_name}.json"] != bins_role.signed.version`
from `publish_targets_metas`: its left operand is a `MetaFile` object and its right an `int`.
In Python a `MetaFile` instance never equals an `int` (neither operand's equality accepts the
other's type), so this comparison evaluates to true for every pair of operands. -/
def metaFileNeVersion (_meta_file : MetaFile) (_version : Int) : Bool := true

/-- `Metadata.sign(signer, append=True)` stores the fresh signature under its keyid. -/
def sigSet : List Signature → Signature → List Signature
  | [], s => [s]
  | p :: rest, s => if p.keyid = s.keyid then s :: rest else p :: sigSet rest s

/-- `tuf.api.metadata.Metadata`: signed portion plus keyid-keyed signature dict. -/
structure Metadata where
  signed : Signed
  signatures : List Signature
deriving DecidableEq, Repr

/-- The storage backend: latest document per role name (the `_load` view) and the written
files by file name (the `to_file` view). -/
structure Storage where
  roles : List (String × Metadata)
  files : List (String × Metadata)
deriving DecidableEq, Repr

/-- `self._settings`: `getFreshInt key` models `int(settings.get_fresh(key))`;
`hoursBeforeExpire` models `self._hours_before_expire`, read once at construction from
`settings.get_fresh("HOURS_BEFORE_EXPIRE", 1)`. -/
structure Settings where
  getFreshInt : String → Int
  hoursBeforeExpire : Int

/-- Python exceptions reachable in this module. -/
inductive PyError where
  | storageError
  | keyError
  | attributeError
deriving DecidableEq, Repr

/-- `self._key_storage_backend.get`: role name to the keys for that role. -/
def KeyVault : Type := String → List Key

instance instDecEqExcept {ε α : Type} [DecidableEq ε] [DecidableEq α] :
    DecidableEq (Except ε α) := fun x y =>
  match x, y with
  | .ok a, .ok b =>
    if h : a = b then .isTrue (by subst h; rfl) else .isFalse (fun hh => h (Except.ok.inj hh))
  | .error a, .error b =>
    if h : a = b then .isTrue (by subst h; rfl) else .isFalse (fun hh => h (Except.error.inj hh))
  | .ok _, .error _ => .isFalse fun hh => Except.noConfusion hh
  | .error _, .ok _ => .isFalse fun hh => Except.noConfusion hh

def BIN : String := "bin"
def BINS : String := "bins"

def Timestamp.type : String := "timestamp"

def Snapshot.type : String := "snapshot"

/-- `MetadataRepository._load`: `Metadata.from_file(role_name, None, self._storage_backend)`;
the backend serves the latest version stored for `role_name`, raising `StorageError` when
the role has no stored document. -/
def _load (s : Storage) (role_name : String) : Except PyError Metadata :=
  match dictGet s.roles role_name with
  | some m => .ok m
  | none => .error .storageError

/-- `MetadataRepository._sign`: clear the signature dict, then sign once with every key the
key vault returns for `role_name` (each `role.sign(signer, append=True)` stores a fresh
signature over the current signed portion under the signer's keyid). -/
def _sign (kv : KeyVault) (role : Metadata) (role_name : String) : Metadata :=
  { role with
    signatures :=
      (kv role_name).foldl (fun sigs k => sigSet sigs { keyid := k.keyid, signedOver := role.signed }) [] }

/-- The file name computed by `MetadataRepository._persist`: `"{role_name}.json"`, and for
every role other than timestamp the version is prepended unless the name already starts
with `"{version}."`. -/
def persistFilename (role : Metadata) (role_name : String) : String :=
  let filename := role_name ++ ".json"
  if role_name ≠ Timestamp.type then
    if pyStartsWith filename (toString role.signed.version ++ ".") = false then
      toString role.signed.version ++ "." ++ filename
    else filename
  else filename

/-- `MetadataRepository._persist`: `role.to_file(filename, JSONSerializer(), backend)`.
The write is recorded under the computed file name, and the role's latest-version view is
updated, since the written document is the one `_load` returns next. -/
def _persist (s : Storage) (role : Metadata) (role_name : String) : Storage :=
  { roles := dictSet s.roles role_name role
    files := dictSet s.files (persistFilename role role_name) role }

/-- `MetadataRepository._bump_expiry`: `role.signed.expires = datetime.now().replace(microsecond=0)
+ timedelta(days=int(settings.get_fresh(f"{expiry_id}_EXPIRATION")))`. -/
def _bump_expiry (st : Settings) (now : Int) (role : Metadata) (expiry_id : String) : Metadata :=
  { role with
    signed :=
      { role.signed with
        expires := replaceMicrosecond now + daysToMicro (st.getFreshInt (expiry_id ++ "_EXPIRATION")) } }

/-- `MetadataRepository._bump_version`: `role.signed.version += 1`. -/
def _bump_version (role : Metadata) : Metadata :=
  { role with signed := { role.signed with version := role.signed.version + 1 } }

/-- `MetadataRepository._update_timestamp`: load timestamp, point its `snapshot_meta` at the
given snapshot version, bump version then expiry, sign and persist. -/
def _update_timestamp (st : Settings) (kv : KeyVault) (now : Int) (s : Storage)
    (snapshot_version : Int) : Except PyError Metadata × Storage :=
  match _load s Timestamp.type with
  | .error e => (.error e, s)
  | .ok timestamp =>
    let timestamp :=
      { timestamp with signed := { timestamp.signed with snapshot_meta := { version := snapshot_version } } }
    let timestamp := _bump_version timestamp
    let timestamp := _bump_expiry st now timestamp Timestamp.type
    let timestamp := _sign kv timestamp Timestamp.type
    let s := _persist s timestamp Timestamp.type
    (.ok timestamp, s)

/-- `MetadataRepository._update_snapshot`: load snapshot, record the passed `(name, version)`
pairs in its meta dict under `"{name}.json"`, bump expiry then version, sign and persist,
returning the new snapshot version. -/
def _update_snapshot (st : Settings) (kv : KeyVault) (now : Int) (s : Storage)
    (targets_meta : List (String × Int)) : Except PyError Int × Storage :=
  match _load s Snapshot.type with
  | .error e => (.error e, s)
  | .ok snapshot =>
    let snapshot :=
      { snapshot with
        signed :=
          { snapshot.signed with
            meta := targets_meta.foldl
              (fun m p => dictSet m (p.1 ++ ".json") { version := p.2 }) snapshot.signed.meta } }
    let snapshot := _bump_expiry st now snapshot Snapshot.type
    let snapshot := _bump_version snapshot
    let snapshot := _sign kv snapshot Snapshot.type
    let s := _persist s snapshot Snapshot.type
    (.ok snapshot.signed.version, s)

/-- The first loop of `add_targets`: group the incoming target dicts by the bin
`succinct_roles.get_role_for_target` assigns to their path, in first-seen order. -/
def groupTargets (sr : SuccinctRolesModel) (targets : List TargetDict) :
    List (String × List TargetFile) :=
  targets.foldl
    (fun groups t =>
      let bins_name := sr.get_role_for_target t.path
      let target_file := TargetFile.from_dict t.info t.path
      dictSet groups bins_name ((dictGet groups bins_name).getD [] ++ [target_file]))
    []

/-- The second loop of `add_targets`: for each affected bin, load it, upsert the grouped
target files by path, bump expiry and version with the `BINS` class, sign and persist, and
record `(bins_name, new_version)`.  A load failure raises out of the loop, keeping the
storage mutations made for the bins already processed. -/
def addTargetsLoop (st : Settings) (kv : KeyVault) (now : Int) (s : Storage) :
    List (String × List TargetFile) → Except PyError (List (String × Int)) × Storage
  | [] => (.ok [], s)
  | (bins_name, target_files) :: rest =>
    match _load s bins_name with
    | .error e => (.error e, s)
    | .ok bins_role =>
      let bins_role :=
        { bins_role with
          signed :=
            { bins_role.signed with
              targets := target_files.foldl (fun m tf => dictSet m tf.path tf) bins_role.signed.targets } }
      let bins_role := _bump_expiry st now bins_role BINS
      let bins_role := _bump_version bins_role
      let bins_role := _sign kv bins_role BINS
      let s := _persist s bins_role bins_name
      match addTargetsLoop st kv now s rest with
      | (.error e, s₁) => (.error e, s₁)
      | (.ok targets_meta, s₁) => (.ok ((bins_name, bins_role.signed.version) :: targets_meta), s₁)

/-- `MetadataRepository.add_targets`: load the top-level `bin` role, group the targets by
responsible bin via its succinct delegation, then run the per-bin update loop. -/
def add_targets (st : Settings) (kv : KeyVault) (now : Int) (s : Storage)
    (targets : List TargetDict) : Except PyError (List (String × Int)) × Storage :=
  match _load s BIN with
  | .error e => (.error e, s)
  | .ok bin =>
    match bin.signed.delegations with
    | none => (.error .attributeError, s)
    | some delegations =>
      addTargetsLoop st kv now s (groupTargets delegations.succinct_roles targets)

/-- The changed-set loop of `publish_targets_metas`: for each listed bin, load its role and
evaluate `snapshot.signed.meta[f"{bins_name}.json"] != bins_role.signed.version`; a missing
snapshot meta entry raises `KeyError`.  The left operand of `!=` is a `MetaFile` object and
the right an `int`: in Python a `MetaFile` instance never equals an `int`, so the
comparison is true for every listed bin. -/
def publishCollect (s : Storage) (snapshot : Metadata) :
    List String → Except PyError (List (String × Int))
  | [] => .ok []
  | bins_name :: rest =>
    match _load s bins_name with
    | .error e => .error e
    | .ok bins_role =>
      match dictGet snapshot.signed.meta (bins_name ++ ".json") with
      | none => .error .keyError
      | some meta_file =>
        match publishCollect s snapshot rest with
        | .error e => .error e
        | .ok targets_meta =>
          if metaFileNeVersion meta_file bins_role.signed.version then
            .ok ((bins_name, bins_role.signed.version) :: targets_meta)
          else .ok targets_meta

/-- `MetadataRepository.publish_targets_metas`: collect the changed set, then, when it is
non-empty, run `_update_timestamp(self._update_snapshot(targets_meta))`. -/
def publish_targets_metas (st : Settings) (kv : KeyVault) (now : Int) (s : Storage)
    (bins_names : List String) : Except PyError Unit × Storage :=
  match _load s Snapshot.type with
  | .error e => (.error e, s)
  | .ok snapshot =>
    match publishCollect s snapshot bins_names with
    | .error e => (.error e, s)
    | .ok targets_meta =>
      if targets_meta.length ≠ 0 then
        match _update_snapshot st kv now s targets_meta with
        | (.error e, s₁) => (.error e, s₁)
        | (.ok snapshot_version, s₁) =>
          match _update_timestamp st kv now s₁ snapshot_version with
          | (.error e, s₂) => (.error e, s₂)
          | (.ok _, s₂) => (.ok (), s₂)
      else (.ok (), s)

/-- The sweep loop of `bump_bins_roles`: for each delegated bin name, load the bin and, when
`bins_role.signed.expires - datetime.now() < timedelta(hours=self._hours_before_expire)`,
bump expiry and version with the `BINS` class, sign, persist, and record the new version. -/
def bumpBinsLoop (st : Settings) (kv : KeyVault) (now : Int) (s : Storage) :
    List String → Except PyError (List (String × Int)) × Storage
  | [] => (.ok [], s)
  | bins_name :: rest =>
    match _load s bins_name with
    | .error e => (.error e, s)
    | .ok bins_role =>
      if bins_role.signed.expires - now < hoursToMicro st.hoursBeforeExpire then
        let bins_role := _bump_expiry st now bins_role BINS
        let bins_role := _bump_version bins_role
        let bins_role := _sign kv bins_role BINS
        let s := _persist s bins_role bins_name
        match bumpBinsLoop st kv now s rest with
        | (.error e, s₁) => (.error e, s₁)
        | (.ok targets_meta, s₁) => (.ok ((bins_name, bins_role.signed.version) :: targets_meta), s₁)
      else bumpBinsLoop st kv now s rest

/-- `MetadataRepository.bump_bins_roles`: abort with `False` when the top-level `bin` role
cannot be loaded (only `StorageError` is caught), otherwise sweep every delegated bin and,
when at least one was bumped, run `_update_timestamp(self._update_snapshot(targets_meta))`. -/
def bump_bins_roles (st : Settings) (kv : KeyVault) (now : Int) (s : Storage) :
    Except PyError Bool × Storage :=
  match _load s BIN with
  | .error .storageError => (.ok false, s)
  | .error e => (.error e, s)
  | .ok bin =>
    match bin.signed.delegations with
    | none => (.error .attributeError, s)
    | some delegations =>
      match bumpBinsLoop st kv now s delegations.succinct_roles.roles with
      | (.error e, s₁) => (.error e, s₁)
      | (.ok targets_meta, s₁) =>
        if targets_meta.length > 0 then
          match _update_snapshot st kv now s₁ targets_meta with
          | (.error e, s₂) => (.error e, s₂)
          | (.ok snapshot_version, s₂) =>
            match _update_timestamp st kv now s₂ snapshot_version with
            | (.error e, s₃) => (.error e, s₃)
            | (.ok _, s₃) => (.ok true, s₃)
        else (.ok true, s₁)

/-- `MetadataRepository.bump_snapshot`: abort with `False` when snapshot cannot be loaded
(only `StorageError` is caught); when `snapshot.signed.expires - datetime.now() <
timedelta(hours=self._hours_before_expire)`, run
`_update_timestamp(self._update_snapshot([]))`; return `True` either way. -/
def bump_snapshot (st : Settings) (kv : KeyVault) (now : Int) (s : Storage) :
    Except PyError Bool × Storage :=
  match _load s Snapshot.type with
  | .error .storageError => (.ok false, s)
  | .error e => (.error e, s)
  | .ok snapshot =>
    if snapshot.signed.expires - now < hoursToMicro st.hoursBeforeExpire then
      match _update_snapshot st kv now s [] with
      | (.error e, s₁) => (.error e, s₁)
      | (.ok snapshot_version, s₁) =>
        match _update_timestamp st kv now s₁ snapshot_version with
        | (.error e, s₂) => (.error e, s₂)
        | (.ok _, s₂) => (.ok true, s₂)
    else (.ok true, s)

/-! ### Predicates used by the verification statements -/

/-- The freshness-window test applied by both scheduled sweeps:
`doc.signed.expires - datetime.now() < timedelta(hours=self._hours_before_expire)`. -/
def inWindow (st : Settings) (now : Int) (doc : Metadata) : Prop :=
  doc.signed.expires - now < hoursToMicro st.hoursBeforeExpire

/-- The document's expiry was set by `_bump_expiry` at time `now` for some role class. -/
def freshExp (st : Settings) (now : Int) (doc : Metadata) : Prop :=
  ∃ expiry_id : String,
    doc.signed.expires = replaceMicrosecond now + daysToMicro (st.getFreshInt (expiry_id ++ "_EXPIRATION"))

/-- Every configured expiration interval strictly exceeds the freshness threshold. -/
def intervalsExceedThreshold (st : Settings) : Prop :=
  ∀ expiry_id : String,
    hoursToMicro st.hoursBeforeExpire < daysToMicro (st.getFreshInt (expiry_id ++ "_EXPIRATION"))

/-- The stored timestamp points at the stored snapshot's version. -/
def tsPointsAtSnap (s : Storage) : Prop :=
  ∀ ts snap, dictGet s.roles Timestamp.type = some ts →
    dictGet s.roles Snapshot.type = some snap →
    ts.signed.snapshot_meta.version = snap.signed.version

/-! ### Concrete repository states used by witnesses and counterexamples -/

/-- A signed portion with the given version and expiry and empty payloads. -/
def mkSigned (v e : Int) : Signed :=
  { version := v, expires := e, snapshot_meta := ⟨0⟩, meta := [], targets := [], delegations := none }

/-- A far-future expiry (year ≈ 33658). -/
def farFuture : Int := 1000000000000000000

/-- Sample settings: every `*_EXPIRATION` interval is 7 days, the freshness threshold 1 hour. -/
def cSt : Settings := { getFreshInt := fun _ => 7, hoursBeforeExpire := 1 }

/-- Sample key vault with no keys for any role. -/
def cKv : KeyVault := fun _ => []

/-- Sample key vault with two keys for the `bins` identity. -/
def cKv2 : KeyVault := fun n => if n = BINS then [⟨"k1"⟩, ⟨"k2"⟩] else []

/-- A sample current time with a nonzero microsecond component. -/
def cNow : Int := 1700000000123456

/-- A bin role at version 1, far from expiry. -/
def binsA : Metadata := ⟨mkSigned 1 farFuture, []⟩

/-- A bin role at version 3, within one hour of expiry at `cNow`. -/
def binsB : Metadata := ⟨mkSigned 3 (cNow + 1000), []⟩

/-- A snapshot recording `bins-a` at version 1, far from expiry. -/
def snapDoc : Metadata := ⟨{ mkSigned 1 farFuture with meta := [("bins-a.json", ⟨1⟩)] }, []⟩

/-- A snapshot recording `bins-a` at version 1, within one hour of expiry at `cNow`. -/
def snapNear : Metadata := ⟨{ mkSigned 5 (cNow + 1000) with meta := [("bins-a.json", ⟨1⟩)] }, []⟩

/-- A timestamp pointing at snapshot version 1, far from expiry. -/
def tsDoc : Metadata := ⟨{ mkSigned 1 farFuture with snapshot_meta := ⟨1⟩ }, []⟩

/-- A top-level `bin` role delegating to the single bin `bins-a`, owning path `pa`. -/
def binDoc : Metadata :=
  ⟨{ mkSigned 1 farFuture with delegations := some ⟨⟨["bins-a"], [("pa", "bins-a")]⟩⟩ }, []⟩

/-- A repository whose stored `bins-a` version already matches the one snapshot records. -/
def cS : Storage :=
  { roles := [("bin", binDoc), ("bins-a", binsA), ("snapshot", snapDoc), ("timestamp", tsDoc)]
    files := [] }

/-- Like `cS` but with `bins-a` within the freshness window. -/
def cS2 : Storage :=
  { roles := [("bin", binDoc), ("bins-a", binsB), ("snapshot", snapDoc), ("timestamp", tsDoc)]
    files := [] }

/-- Like `cS` but with snapshot within the freshness window. -/
def cS3 : Storage :=
  { roles := [("bin", binDoc), ("bins-a", binsA), ("snapshot", snapNear), ("timestamp", tsDoc)]
    files := [] }

/-- A `bin` role delegating paths `pa` to bin `bx` and `pb` to bin `by`. -/
def binDoc2 : Metadata :=
  ⟨{ mkSigned 1 farFuture with delegations := some ⟨⟨["bx", "by"], [("pa", "bx"), ("pb", "by")]⟩⟩ }, []⟩

/-- A repository where bin `by` exists but bin `bx` has no stored document. -/
def cS4 : Storage :=
  { roles := [("bin", binDoc2), ("by", binsA), ("snapshot", snapDoc), ("timestamp", tsDoc)]
    files := [] }

/-- A metadata document at version 2 (whatever its role). -/
def docV2 : Metadata := ⟨mkSigned 2 farFuture, []⟩

/-- A metadata document at version 1. -/
def docV1 : Metadata := ⟨mkSigned 1 farFuture, []⟩

/-- A repository with no stored documents at all. -/
def emptyStorage : Storage := ⟨[], []⟩

/-- A storage whose file `2.json` holds the version-1 document of a role named `2`. -/
def sOld : Storage := ⟨[("2", docV1)], [("2.json", docV1)]⟩

/-! ### Association-list (Python dict) lemmas -/

theorem dictGet_dictSet_self {α : Type} (d : List (String × α)) (k : String) (v : α) :
    dictGet (dictSet d k v) k = some v := by
  induction d with
  | nil => simp [dictSet, dictGet]
  | cons p rest ih =>
    by_cases h : p.1 = k
    · simp [dictSet, h, dictGet]
    · simp [dictSet, h, dictGet, ih]

theorem dictGet_dictSet_ne {α : Type} (d : List (String × α)) {k k' : String} (h : k' ≠ k)
    (v : α) : dictGet (dictSet d k v) k' = dictGet d k' := by
  have hk : k ≠ k' := Ne.symm h
  induction d with
  | nil => simp [dictSet, dictGet, hk]
  | cons p rest ih =>
    by_cases hp : p.1 = k
    · subst hp
      simp [dictSet, dictGet, hk]
    · by_cases hp' : p.1 = k'
      · simp [dictSet, hp, dictGet, hp', h]
      · simp [dictSet, hp, dictGet, hp', ih]

theorem dictGet_dictSet_cases {α : Type} (d : List (String × α)) (k n : String) (v : α)
    (doc : α) (h : dictGet (dictSet d k v) n = some doc) :
    (n = k ∧ doc = v) ∨ (n ≠ k ∧ dictGet d n = some doc) := by
  by_cases hk : n = k
  · subst hk
    rw [dictGet_dictSet_self] at h
    exact Or.inl ⟨rfl, (Option.some.injEq _ _ ▸ h).symm⟩
  · rw [dictGet_dictSet_ne d hk] at h
    exact Or.inr ⟨hk, h⟩

theorem dictGet_dictSet_isSome {α : Type} (d : List (String × α)) (k n : String) (v : α)
    (h : (dictGet d n).isSome) : (dictGet (dictSet d k v) n).isSome := by
  by_cases hk : n = k
  · subst hk; rw [dictGet_dictSet_self]; rfl
  · rw [dictGet_dictSet_ne d hk]; exact h

/-! ### Signature-dict lemmas -/

theorem sigSet_mem (sigs : List Signature) (p q : Signature) (h : q ∈ sigSet sigs p) :
    q ∈ sigs ∨ q = p := by
  induction sigs with
  | nil => simp [sigSet] at h; exact Or.inr h
  | cons r rest ih =>
    by_cases hr : r.keyid = p.keyid
    · simp [sigSet, hr] at h
      rcases h with h | h
      · exact Or.inr h
      · exact Or.inl (List.mem_cons_of_mem _ h)
    · simp only [sigSet, if_neg hr, List.mem_cons] at h
      rcases h with h | h
      · exact Or.inl (h ▸ List.mem_cons_self _ _)
      · rcases ih h with h' | h'
        · exact Or.inl (List.mem_cons_of_mem _ h')
        · exact Or.inr h'

theorem sigSet_of_not_mem (sigs : List Signature) (p : Signature)
    (h : ∀ q ∈ sigs, q.keyid ≠ p.keyid) : sigSet sigs p = sigs ++ [p] := by
  induction sigs with
  | nil => rfl
  | cons r rest ih =>
    have hr : r.keyid ≠ p.keyid := h r (List.mem_cons_self _ _)
    simp only [sigSet, if_neg hr, List.cons_append, List.cons.injEq, true_and]
    exact ih fun q hq => h q (List.mem_cons_of_mem _ hq)

theorem signFold_eq_map_general (sgn : Signed) :
    ∀ (ks : List Key) (acc : List Signature), (ks.map Key.keyid).Nodup →
      (∀ q ∈ acc, q.keyid ∉ ks.map Key.keyid) →
      ks.foldl (fun sigs k => sigSet sigs { keyid := k.keyid, signedOver := sgn }) acc
        = acc ++ ks.map (fun k => { keyid := k.keyid, signedOver := sgn : Signature }) := by
  intro ks
  induction ks with
  | nil => intro acc _ _; simp
  | cons k rest ih =>
    intro acc hnd hdisj
    have hset : sigSet acc { keyid := k.keyid, signedOver := sgn } =
        acc ++ [{ keyid := k.keyid, signedOver := sgn }] := by
      refine sigSet_of_not_mem acc _ fun q hq => ?_
      have := hdisj q hq
      simp only [List.map_cons, List.mem_cons] at this
      exact fun hcontra => this (Or.inl hcontra)
    have hk_not : k.keyid ∉ rest.map Key.keyid := by
      have := hnd
      simp only [List.map_cons, List.nodup_cons] at this
      exact this.1
    have hnd' : (rest.map Key.keyid).Nodup := by
      have := hnd
      simp only [List.map_cons, List.nodup_cons] at this
      exact this.2
    have hdisj' : ∀ q ∈ acc ++ [{ keyid := k.keyid, signedOver := sgn : Signature }],
        q.keyid ∉ rest.map Key.keyid := by
      intro q hq
      rcases List.mem_append.1 hq with hq | hq
      · have := hdisj q hq
        simp only [List.map_cons, List.mem_cons] at this
        exact fun hcontra => this (Or.inr hcontra)
      · simp only [List.mem_singleton] at hq
        subst hq
        exact hk_not
    simp only [List.foldl_cons, hset, ih _ hnd' hdisj', List.map_cons, List.append_assoc,
      List.singleton_append]

theorem signFold_signedOver (sgn : Signed) :
    ∀ (ks : List Key) (acc : List Signature), (∀ q ∈ acc, q.signedOver = sgn) →
      ∀ q ∈ ks.foldl (fun sigs k => sigSet sigs { keyid := k.keyid, signedOver := sgn }) acc,
        q.signedOver = sgn := by
  intro ks
  induction ks with
  | nil => intro acc hacc q hq; exact hacc q hq
  | cons k rest ih =>
    intro acc hacc q hq
    refine ih _ ?_ q hq
    intro r hr
    rcases sigSet_mem acc { keyid := k.keyid, signedOver := sgn } r hr with h | h
    · exact hacc r h
    · rw [h]

theorem signFold_eq_map (ks : List Key) (sgn : Signed)
    (hnd : (ks.map Key.keyid).Nodup) :
    ks.foldl (fun sigs k => sigSet sigs { keyid := k.keyid, signedOver := sgn }) []
      = ks.map (fun k => { keyid := k.keyid, signedOver := sgn : Signature }) := by
  simpa using signFold_eq_map_general sgn ks [] hnd (by simp)

/-! ### Freshness arithmetic -/

theorem fresh_not_in_window (st : Settings) (now : Int) (doc : Metadata)
    (hall : intervalsExceedThreshold st) (hf : freshExp st now doc) :
    ¬ inWindow st now doc := by
  obtain ⟨expiry_id, he⟩ := hf
  have h := hall expiry_id
  unfold inWindow
  rw [he]
  unfold replaceMicrosecond daysToMicro hoursToMicro at *
  omega

/-! ### Shape of the snapshot/timestamp update cycle -/

theorem update_snapshot_shape (st : Settings) (kv : KeyVault) (now : Int) (s : Storage)
    (tm : List (String × Int)) :
    (dictGet s.roles Snapshot.type = none ∧
      _update_snapshot st kv now s tm = (.error .storageError, s)) ∨
    (∃ snap0 doc, dictGet s.roles Snapshot.type = some snap0 ∧
      _update_snapshot st kv now s tm = (.ok doc.signed.version, _persist s doc Snapshot.type) ∧
      doc.signed =
        { snap0.signed with
          meta := tm.foldl (fun m p => dictSet m (p.1 ++ ".json") { version := p.2 }) snap0.signed.meta
          expires := replaceMicrosecond now + daysToMicro (st.getFreshInt (Snapshot.type ++ "_EXPIRATION"))
          version := snap0.signed.version + 1 } ∧
      doc.signatures = (kv Snapshot.type).foldl
        (fun sigs k => sigSet sigs { keyid := k.keyid, signedOver := doc.signed }) []) := by
  match h : dictGet s.roles Snapshot.type with
  | none =>
    left
    refine ⟨rfl, ?_⟩
    simp only [_update_snapshot, _load, h]
  | some snap0 =>
    right
    simp only [_update_snapshot, _load, h]
    exact ⟨snap0, _, rfl, rfl, rfl, rfl⟩

theorem update_timestamp_shape (st : Settings) (kv : KeyVault) (now : Int) (s : Storage)
    (v : Int) :
    (dictGet s.roles Timestamp.type = none ∧
      _update_timestamp st kv now s v = (.error .storageError, s)) ∨
    (∃ ts0 doc, dictGet s.roles Timestamp.type = some ts0 ∧
      _update_timestamp st kv now s v = (.ok doc, _persist s doc Timestamp.type) ∧
      doc.signed =
        { ts0.signed with
          snapshot_meta := { version := v }
          version := ts0.signed.version + 1
          expires := replaceMicrosecond now + daysToMicro (st.getFreshInt (Timestamp.type ++ "_EXPIRATION")) } ∧
      doc.signatures = (kv Timestamp.type).foldl
        (fun sigs k => sigSet sigs { keyid := k.keyid, signedOver := doc.signed }) []) := by
  match h : dictGet s.roles Timestamp.type with
  | none =>
    left
    refine ⟨rfl, ?_⟩
    simp only [_update_timestamp, _load, h]
  | some ts0 =>
    right
    simp only [_update_timestamp, _load, h]
    exact ⟨ts0, _, rfl, rfl, rfl, rfl⟩

/-! ### Claim C3 -/

/-- C3: every bump pair applied during a cycle increments the version by exactly 1 (no
wraparound handling; the version space is the unbounded integers) and sets the expiry to
the current time truncated to second precision plus the interval configured for the role's
class (`{expiry_id}_EXPIRATION`); every bin is bumped with the single `bins` class id, so
all bins share one interval. -/
theorem bump_pair_spec (role : Metadata) (st : Settings) (now : Int) (expiry_id : String) :
    (_bump_version role).signed.version = role.signed.version + 1 ∧
    (_bump_expiry st now role expiry_id).signed.expires
      = replaceMicrosecond now + daysToMicro (st.getFreshInt (expiry_id ++ "_EXPIRATION")) ∧
    (∀ b₁ b₂ : Metadata, (_bump_expiry st now b₁ BINS).signed.expires
      = (_bump_expiry st now b₂ BINS).signed.expires) :=
  ⟨rfl, rfl, fun _ _ => rfl⟩

/-! ### Claim C5 -/

/-- C5: when loading the top-level `bin` delegation document fails with a storage error,
`bump_bins_roles` returns `False` without raising and the storage is completely
untouched — no bin, snapshot, or timestamp document is modified or persisted. -/
theorem bump_bins_roles_fails_without_bin (st : Settings) (kv : KeyVault) (now : Int)
    (s : Storage) (h : _load s BIN = .error .storageError) :
    bump_bins_roles st kv now s = (.ok false, s) := by
  simp only [bump_bins_roles, h]

/-- Witness for C5: on an empty repository the `bin` role is absent, the sweep reports
failure, and the storage is unchanged. -/
theorem bump_bins_roles_fails_without_bin_witness :
    _load emptyStorage BIN = .error .storageError ∧
      bump_bins_roles cSt cKv cNow emptyStorage = (.ok false, emptyStorage) :=
  ⟨by decide, bump_bins_roles_fails_without_bin cSt cKv cNow emptyStorage (by decide)⟩

/-! ### Claim C9 -/

/-- Counterexample to C9 as stated: a role named `2` persisted at version 2 is written to
the unprefixed file name `2.json`, not to the version-prefixed `2.2.json`, because
`"2.json"` already starts with `"2."`. -/
theorem persist_always_prefixes_cex :
    (_persist sOld docV2 "2").files = [("2.json", docV2)] ∧
      dictGet (_persist sOld docV2 "2").files "2.2.json" = none ∧
      "2" ≠ Timestamp.type ∧ docV2.signed.version = 2 := by
  decide

/-- C9 amended: the timestamp role is always written under the fixed `timestamp.json` with
no version prefix, and every other role's file name is prefixed with the document's current
version — unless `"{role_name}.json"` already starts with `"{version}."`, in which case it
is written unprefixed. -/
theorem persistFilename_spec (role : Metadata) (role_name : String) :
    (persistFilename role Timestamp.type = "timestamp.json") ∧
    (role_name ≠ Timestamp.type →
      pyStartsWith (role_name ++ ".json") (toString role.signed.version ++ ".") = false →
      persistFilename role role_name
        = toString role.signed.version ++ "." ++ role_name ++ ".json") ∧
    (role_name ≠ Timestamp.type →
      pyStartsWith (role_name ++ ".json") (toString role.signed.version ++ ".") = true →
      persistFilename role role_name = role_name ++ ".json") := by
  refine ⟨by simp [persistFilename, Timestamp.type], fun h hsw => ?_, fun h hsw => ?_⟩
  · simp [persistFilename, h, hsw, String.append_assoc]
  · simp [persistFilename, h, hsw]

/-- Witness for C9's amended statement: a snapshot document at version 2 is written under
`2.snapshot.json`, and a timestamp document under `timestamp.json`. -/
theorem persistFilename_spec_witness :
    persistFilename docV2 Timestamp.type = "timestamp.json" ∧
      persistFilename docV2 Snapshot.type
        = toString docV2.signed.version ++ "." ++ Snapshot.type ++ ".json" :=
  ⟨(persistFilename_spec docV2 Snapshot.type).1,
    (persistFilename_spec docV2 Snapshot.type).2.1 (by decide) (by decide)⟩

/-! ### Claim C10 -/

/-- C10: `_persist` adds the version prefix to a non-timestamp role's file name only when
`"{role_name}.json"` does not already start with `"{version}."`; consequently a role whose
name spells the decimal digits of its own current version (such as a role named `2`
persisted at version 2) is written to the unprefixed `"{role_name}.json"`, overwriting the
file stored there instead of creating a version-prefixed file. -/
theorem persist_prefix_only_when_needed (s : Storage) (role : Metadata) (role_name : String) :
    (role_name ≠ Timestamp.type →
      pyStartsWith (role_name ++ ".json") (toString role.signed.version ++ ".") = true →
      (_persist s role role_name).files = dictSet s.files (role_name ++ ".json") role) ∧
    (role_name ≠ Timestamp.type →
      pyStartsWith (role_name ++ ".json") (toString role.signed.version ++ ".") = false →
      (_persist s role role_name).files
        = dictSet s.files (toString role.signed.version ++ "." ++ role_name ++ ".json") role) ∧
    ((_persist sOld docV2 "2").files = [("2.json", docV2)] ∧
      dictGet sOld.files "2.json" = some docV1) := by
  refine ⟨fun h hsw => ?_, fun h hsw => ?_, by decide, by decide⟩
  · simp [_persist, persistFilename, h, hsw]
  · simp [_persist, persistFilename, h, hsw, String.append_assoc]

/-- Witness for C10: persisting the version-2 document of the role named `2` writes the
unprefixed file `2.json`, replacing the version-1 document stored there. -/
theorem persist_prefix_only_when_needed_witness :
    (_persist sOld docV2 "2").files = dictSet sOld.files ("2" ++ ".json") docV2 :=
  (persist_prefix_only_when_needed sOld docV2 "2").1 (by decide) (by decide)

/-! ### Claim C8 -/

/-- C8: the signing step discards the document's entire previous signature set (the result
does not depend on the prior signatures, and every remaining signature covers the current
signed content); afterwards the set holds exactly one fresh signature per key returned for
the role identity; with no keys the document ends up unsigned (empty signature set), and
the caller (`_update_timestamp` as the representative cycle) still persists it. -/
theorem sign_spec (kv : KeyVault) (role : Metadata) (role_name : String) :
    ((_sign kv role role_name).signatures
        = (_sign kv { role with signatures := [] } role_name).signatures) ∧
    (∀ sig ∈ (_sign kv role role_name).signatures, sig.signedOver = role.signed) ∧
    (((kv role_name).map Key.keyid).Nodup →
      (_sign kv role role_name).signatures
        = (kv role_name).map fun k => { keyid := k.keyid, signedOver := role.signed }) ∧
    (kv role_name = [] → (_sign kv role role_name).signatures = []) ∧
    (∀ (st : Settings) (now : Int) (s : Storage) (v : Int) (ts : Metadata) (s₂ : Storage),
      kv Timestamp.type = [] → _update_timestamp st kv now s v = (.ok ts, s₂) →
      dictGet s₂.roles Timestamp.type = some ts ∧ ts.signatures = []) := by
  refine ⟨rfl, ?_, ?_, ?_, ?_⟩
  · intro sig hs
    exact signFold_signedOver role.signed (kv role_name) [] (by simp) sig hs
  · intro hnd
    exact signFold_eq_map (kv role_name) role.signed hnd
  · intro h
    simp [_sign, h]
  · intro st now s v ts s₂ hkeys heq
    rcases update_timestamp_shape st kv now s v with ⟨_, herr⟩ | ⟨ts0, doc, _, hok, _, hsigs⟩
    · rw [herr] at heq
      exact absurd (congrArg Prod.fst heq) (by simp)
    · rw [hok] at heq
      have hdoc : doc = ts := Except.ok.inj (congrArg Prod.fst heq)
      have hsto : s₂ = _persist s doc Timestamp.type := (congrArg Prod.snd heq).symm
      constructor
      · rw [hsto, ← hdoc]
        exact dictGet_dictSet_self s.roles Timestamp.type doc
      · rw [← hdoc, hsigs, hkeys]
        rfl

/-- Witness for C8: with two distinct keys for the `bins` identity, re-signing a bin yields
exactly one fresh signature per key in the key vault's order. -/
theorem sign_spec_witness :
    ((cKv2 BINS).map Key.keyid).Nodup ∧
      (_sign cKv2 binsA BINS).signatures
        = (cKv2 BINS).map fun k => { keyid := k.keyid, signedOver := binsA.signed } :=
  ⟨by decide, (sign_spec cKv2 binsA BINS).2.2.1 (by decide)⟩

/-! ### Claim C1 -/

/-- C1 (code-bug evaluation): in `cS` the stored `bins-a` document has version 1 and the
snapshot already records version 1 for it, so C1 requires `publish_targets_metas ["bins-a"]`
to leave snapshot and timestamp untouched; the code instead compares the `MetaFile` object
itself against the int version (always unequal in Python), includes the bin, and bumps the
persisted snapshot and timestamp to version 2. -/
theorem publish_bumps_snapshot_despite_match :
    (dictGet cS.roles "bins-a").map (fun m => m.signed.version) = some 1 ∧
    (dictGet cS.roles Snapshot.type).map (fun m => dictGet m.signed.meta "bins-a.json")
      = some (some ⟨1⟩) ∧
    (publish_targets_metas cSt cKv cNow cS ["bins-a"]).1 = .ok () ∧
    (dictGet (publish_targets_metas cSt cKv cNow cS ["bins-a"]).2.roles Snapshot.type).map
      (fun m => m.signed.version) = some 2 ∧
    (dictGet (publish_targets_metas cSt cKv cNow cS ["bins-a"]).2.roles Timestamp.type).map
      (fun m => m.signed.version) = some 2 := by
  decide

/-! ### Claim C4 -/

/-- Counterexample to C4 as stated: in `cS4` the batch `[pa, pb]` groups `pa` into the
missing bin `bx` and `pb` into the existing bin `by`; the load failure for `bx` makes the
whole `add_targets` call raise `StorageError` (no result list is returned) and the sibling
bin `by` is not updated, bumped, signed, or persisted — the storage is unchanged. -/
theorem add_targets_isolation_cex :
    add_targets cSt cKv cNow cS4 [⟨"pa", "i1"⟩, ⟨"pb", "i2"⟩] = (.error .storageError, cS4) ∧
      _load cS4 "bx" = .error .storageError ∧
      dictGet cS4.roles "by" = some binsA := by
  decide

/-- C4 amended: a failure while processing a bin during a batch ingest aborts the whole
`add_targets` call: the error propagates to the caller (no result list is returned), and
neither the failing bin nor any bin grouped after it is updated or persisted — the storage
stays exactly as it was when the failure occurred. -/
theorem add_targets_aborts_on_bin_failure
    (st : Settings) (kv : KeyVault) (now : Int) (s : Storage)
    (bins_name : String) (tfs : List TargetFile) (rest : List (String × List TargetFile))
    (e : PyError) (targets : List TargetDict) :
    (_load s bins_name = .error e →
      addTargetsLoop st kv now s ((bins_name, tfs) :: rest) = (.error e, s)) ∧
    (∀ bin d, _load s BIN = .ok bin → bin.signed.delegations = some d →
      groupTargets d.succinct_roles targets = (bins_name, tfs) :: rest →
      _load s bins_name = .error e →
      add_targets st kv now s targets = (.error e, s)) := by
  constructor
  · intro h
    simp only [addTargetsLoop, h]
  · intro bin d hbin hdel hgroup h
    simp only [add_targets, hbin, hdel, hgroup, addTargetsLoop, h]

/-- Witness for C4's amended statement: with bin `bx` missing, the per-bin loop aborts at
its first entry, returning the storage error and leaving the storage untouched. -/
theorem add_targets_aborts_on_bin_failure_witness :
    _load cS4 "bx" = .error .storageError ∧
      addTargetsLoop cSt cKv cNow cS4 [("bx", [⟨"pa", "i1"⟩]), ("by", [⟨"pb", "i2"⟩])]
        = (.error .storageError, cS4) :=
  ⟨by decide,
    (add_targets_aborts_on_bin_failure cSt cKv cNow cS4 "bx" [⟨"pa", "i1"⟩]
        [("by", [⟨"pb", "i2"⟩])] .storageError []).1 (by decide)⟩

/-! ### Claim C2 -/

theorem updatePair_tsPointsAtSnap (st : Settings) (kv : KeyVault) (now : Int)
    (s : Storage) (tm : List (String × Int)) (v : Int) (s₁ : Storage) (ts : Metadata)
    (s₂ : Storage)
    (h1 : _update_snapshot st kv now s tm = (.ok v, s₁))
    (h2 : _update_timestamp st kv now s₁ v = (.ok ts, s₂)) :
    tsPointsAtSnap s₂ := by
  rcases update_snapshot_shape st kv now s tm with ⟨_, herr⟩ | ⟨snap0, doc, _, hok, _, _⟩
  · rw [herr] at h1
    exact Except.noConfusion (congrArg Prod.fst h1)
  · rw [hok] at h1
    have hv : doc.signed.version = v := Except.ok.inj (congrArg Prod.fst h1)
    have hs₁ : _persist s doc Snapshot.type = s₁ := congrArg Prod.snd h1
    rcases update_timestamp_shape st kv now s₁ v with ⟨_, herr2⟩ | ⟨ts0, doc2, _, hok2, hsigned2, _⟩
    · rw [herr2] at h2
      exact Except.noConfusion (congrArg Prod.fst h2)
    · rw [hok2] at h2
      have hd2 : doc2 = ts := Except.ok.inj (congrArg Prod.fst h2)
      have hs₂ : _persist s₁ doc2 Timestamp.type = s₂ := congrArg Prod.snd h2
      intro ts' snap' hts' hsnap'
      rw [← hs₂] at hts' hsnap'
      have hroles : (_persist s₁ doc2 Timestamp.type).roles
          = dictSet s₁.roles Timestamp.type doc2 := rfl
      rw [hroles, dictGet_dictSet_self] at hts'
      have hts'' : ts' = doc2 := (Option.some.inj hts').symm
      rw [hroles, dictGet_dictSet_ne s₁.roles (by decide) doc2, ← hs₁] at hsnap'
      have hroles2 : (_persist s doc Snapshot.type).roles
          = dictSet s.roles Snapshot.type doc := rfl
      rw [hroles2, dictGet_dictSet_self] at hsnap'
      have hsnap'' : snap' = doc := (Option.some.inj hsnap').symm
      rw [hts'', hsnap'', hsigned2, hv]

theorem bumpBinsLoop_nil_noop (st : Settings) (kv : KeyVault) (now : Int) :
    ∀ (L : List String) (s s₁ : Storage),
      bumpBinsLoop st kv now s L = (.ok [], s₁) → s₁ = s := by
  intro L
  induction L with
  | nil =>
    intro s s₁ h
    simp only [bumpBinsLoop] at h
    exact (congrArg Prod.snd h).symm
  | cons n rest ih =>
    intro s s₁ h
    simp only [bumpBinsLoop] at h
    cases hl : _load s n with
    | error e =>
      simp only [hl] at h
      exact Except.noConfusion (congrArg Prod.fst h)
    | ok b =>
      simp only [hl] at h
      by_cases hw : b.signed.expires - now < hoursToMicro st.hoursBeforeExpire
      · rw [if_pos hw] at h
        rcases hr : bumpBinsLoop st kv now
            (_persist s (_sign kv (_bump_version (_bump_expiry st now b BINS)) BINS) n) rest
          with ⟨e | meta, s2⟩
        · simp only [hr] at h
          exact Except.noConfusion (congrArg Prod.fst h)
        · simp only [hr] at h
          exact List.noConfusion (Except.ok.inj (congrArg Prod.fst h))
      · rw [if_neg hw] at h
        exact ih _ _ h

/-- C2: after any successful propagation cycle — the `_update_snapshot` then
`_update_timestamp` pair, a `publish_targets_metas` that changed the repository, a
`bump_bins_roles` that changed the repository, or a `bump_snapshot` that changed the
repository — the persisted timestamp's `snapshot_meta.version` equals the persisted
snapshot's version. -/
theorem propagation_ts_matches_snap (st : Settings) (kv : KeyVault) (now : Int) :
    (∀ s tm v s₁ ts s₂,
      _update_snapshot st kv now s tm = (.ok v, s₁) →
      _update_timestamp st kv now s₁ v = (.ok ts, s₂) → tsPointsAtSnap s₂) ∧
    (∀ s bins_names r s', publish_targets_metas st kv now s bins_names = (.ok r, s') →
      s' ≠ s → tsPointsAtSnap s') ∧
    (∀ s b s', bump_bins_roles st kv now s = (.ok b, s') → s' ≠ s → tsPointsAtSnap s') ∧
    (∀ s b s', bump_snapshot st kv now s = (.ok b, s') → s' ≠ s → tsPointsAtSnap s') := by
  refine ⟨fun s tm v s₁ ts s₂ h1 h2 => updatePair_tsPointsAtSnap st kv now s tm v s₁ ts s₂ h1 h2,
    ?_, ?_, ?_⟩
  · intro s bins_names r s' h hne
    simp only [publish_targets_metas] at h
    cases hl : _load s Snapshot.type with
    | error e =>
      simp only [hl] at h
      exact Except.noConfusion (congrArg Prod.fst h)
    | ok snap =>
      simp only [hl] at h
      cases hc : publishCollect s snap bins_names with
      | error e =>
        simp only [hc] at h
        exact Except.noConfusion (congrArg Prod.fst h)
      | ok tm =>
        simp only [hc] at h
        by_cases hlen : tm.length ≠ 0
        · rw [if_pos hlen] at h
          rcases hu : _update_snapshot st kv now s tm with ⟨e | v, s1⟩
          · simp only [hu] at h
            exact Except.noConfusion (congrArg Prod.fst h)
          · simp only [hu] at h
            rcases hu2 : _update_timestamp st kv now s1 v with ⟨e2 | ts, s2⟩
            · simp only [hu2] at h
              exact Except.noConfusion (congrArg Prod.fst h)
            · simp only [hu2] at h
              have hs' : s2 = s' := congrArg Prod.snd h
              rw [← hs']
              exact updatePair_tsPointsAtSnap st kv now s tm v s1 ts s2 hu hu2
        · rw [if_neg hlen] at h
          exact absurd (show s' = s from (congrArg Prod.snd h).symm) hne
  · intro s b s' h hne
    simp only [bump_bins_roles] at h
    cases hl : _load s BIN with
    | error e =>
      cases e with
      | storageError =>
        simp only [hl] at h
        exact absurd (show s' = s from (congrArg Prod.snd h).symm) hne
      | keyError =>
        simp only [hl] at h
        exact Except.noConfusion (congrArg Prod.fst h)
      | attributeError =>
        simp only [hl] at h
        exact Except.noConfusion (congrArg Prod.fst h)
    | ok bin =>
      simp only [hl] at h
      cases hdel : bin.signed.delegations with
      | none =>
        simp only [hdel] at h
        exact Except.noConfusion (congrArg Prod.fst h)
      | some d =>
        simp only [hdel] at h
        rcases hloop : bumpBinsLoop st kv now s d.succinct_roles.roles with ⟨e | meta, s1⟩
        · simp only [hloop] at h
          exact Except.noConfusion (congrArg Prod.fst h)
        · simp only [hloop] at h
          by_cases hlen : meta.length > 0
          · rw [if_pos hlen] at h
            rcases hu : _update_snapshot st kv now s1 meta with ⟨e | v, s2⟩
            · simp only [hu] at h
              exact Except.noConfusion (congrArg Prod.fst h)
            · simp only [hu] at h
              rcases hu2 : _update_timestamp st kv now s2 v with ⟨e2 | ts, s3⟩
              · simp only [hu2] at h
                exact Except.noConfusion (congrArg Prod.fst h)
              · simp only [hu2] at h
                have hs' : s3 = s' := congrArg Prod.snd h
                rw [← hs']
                exact updatePair_tsPointsAtSnap st kv now s1 meta v s2 ts s3 hu hu2
          · rw [if_neg hlen] at h
            have hmeta : meta = [] := List.length_eq_zero.mp (Nat.eq_zero_of_not_pos hlen)
            rw [hmeta] at hloop
            have hs1 : s1 = s := bumpBinsLoop_nil_noop st kv now _ s s1 hloop
            have hs' : s1 = s' := congrArg Prod.snd h
            exact absurd (hs'.symm.trans hs1) hne
  · intro s b s' h hne
    simp only [bump_snapshot] at h
    cases hl : _load s Snapshot.type with
    | error e =>
      cases e with
      | storageError =>
        simp only [hl] at h
        exact absurd (show s' = s from (congrArg Prod.snd h).symm) hne
      | keyError =>
        simp only [hl] at h
        exact Except.noConfusion (congrArg Prod.fst h)
      | attributeError =>
        simp only [hl] at h
        exact Except.noConfusion (congrArg Prod.fst h)
    | ok snap =>
      simp only [hl] at h
      by_cases hw : snap.signed.expires - now < hoursToMicro st.hoursBeforeExpire
      · rw [if_pos hw] at h
        rcases hu : _update_snapshot st kv now s [] with ⟨e | v, s1⟩
        · simp only [hu] at h
          exact Except.noConfusion (congrArg Prod.fst h)
        · simp only [hu] at h
          rcases hu2 : _update_timestamp st kv now s1 v with ⟨e2 | ts, s2⟩
          · simp only [hu2] at h
            exact Except.noConfusion (congrArg Prod.fst h)
          · simp only [hu2] at h
            have hs' : s2 = s' := congrArg Prod.snd h
            rw [← hs']
            exact updatePair_tsPointsAtSnap st kv now s [] v s1 ts s2 hu hu2
      · rw [if_neg hw] at h
        exact absurd (show s' = s from (congrArg Prod.snd h).symm) hne

/-- Witness for C2: running the snapshot-then-timestamp update pair on `cS` produces a
state in which the stored timestamp points at the stored snapshot's version. -/
theorem propagation_ts_matches_snap_witness :
    tsPointsAtSnap (_update_timestamp cSt cKv cNow
      (_update_snapshot cSt cKv cNow cS [("bins-a", 2)]).2 2).2 :=
  (propagation_ts_matches_snap cSt cKv cNow).1 cS [("bins-a", 2)] 2
    (_update_snapshot cSt cKv cNow cS [("bins-a", 2)]).2
    ⟨{ version := 2, expires := 1700604800000000, snapshot_meta := ⟨2⟩, meta := [],
       targets := [], delegations := none }, []⟩
    (_update_timestamp cSt cKv cNow (_update_snapshot cSt cKv cNow cS [("bins-a", 2)]).2 2).2
    (by decide) (by decide)

/-! ### Claim C6 -/

/-- C6: whenever `bump_snapshot` finds snapshot within the freshness window, it bumps
snapshot's version and expiry and cascades to timestamp even though no bin changed, and
the resulting snapshot's signed portion equals the old one except for the version and
expiry — in particular the bin-version meta map is exactly the prior map (signatures,
outside the signed portion, are replaced by the signing step). -/
theorem bump_snapshot_in_window (st : Settings) (kv : KeyVault) (now : Int) (s : Storage)
    (snap ts0 : Metadata)
    (hsnap : dictGet s.roles Snapshot.type = some snap)
    (hts : dictGet s.roles Timestamp.type = some ts0)
    (hw : snap.signed.expires - now < hoursToMicro st.hoursBeforeExpire) :
    ∃ snap' ts',
      (bump_snapshot st kv now s).1 = .ok true ∧
      dictGet (bump_snapshot st kv now s).2.roles Snapshot.type = some snap' ∧
      dictGet (bump_snapshot st kv now s).2.roles Timestamp.type = some ts' ∧
      snap'.signed = { snap.signed with
        version := snap.signed.version + 1
        expires := replaceMicrosecond now + daysToMicro (st.getFreshInt (Snapshot.type ++ "_EXPIRATION")) } ∧
      ts'.signed.version = ts0.signed.version + 1 ∧
      ts'.signed.snapshot_meta.version = snap'.signed.version := by
  have hl : _load s Snapshot.type = .ok snap := by simp [_load, hsnap]
  rcases update_snapshot_shape st kv now s [] with ⟨hnone, _⟩ | ⟨snap0, doc, hget, hok, hsigned, _⟩
  · rw [hnone] at hsnap
    exact Option.noConfusion hsnap
  · have hs0 : snap0 = snap := Option.some.inj (hget.symm.trans hsnap)
    have hts1 : dictGet (_persist s doc Snapshot.type).roles Timestamp.type = some ts0 := by
      have : (_persist s doc Snapshot.type).roles = dictSet s.roles Snapshot.type doc := rfl
      rw [this, dictGet_dictSet_ne s.roles (by decide) doc]
      exact hts
    rcases update_timestamp_shape st kv now (_persist s doc Snapshot.type) doc.signed.version
      with ⟨hn2, _⟩ | ⟨ts1, doc2, hget2, hok2, hsigned2, _⟩
    · rw [hn2] at hts1
      exact Option.noConfusion hts1
    · have hts0 : ts1 = ts0 := Option.some.inj (hget2.symm.trans hts1)
      have hres : bump_snapshot st kv now s
          = (.ok true, _persist (_persist s doc Snapshot.type) doc2 Timestamp.type) := by
        simp only [bump_snapshot, hl, if_pos hw, hok, hok2]
      refine ⟨doc, doc2, ?_, ?_, ?_, ?_, ?_, ?_⟩
      · rw [hres]
      · rw [hres]
        have : (_persist (_persist s doc Snapshot.type) doc2 Timestamp.type).roles
            = dictSet (dictSet s.roles Snapshot.type doc) Timestamp.type doc2 := rfl
        rw [this, dictGet_dictSet_ne _ (by decide) doc2, dictGet_dictSet_self]
      · rw [hres]
        have : (_persist (_persist s doc Snapshot.type) doc2 Timestamp.type).roles
            = dictSet (dictSet s.roles Snapshot.type doc) Timestamp.type doc2 := rfl
        rw [this, dictGet_dictSet_self]
      · rw [hs0] at hsigned
        exact hsigned
      · rw [hsigned2, hts0]
      · rw [hsigned2]

/-- Witness for C6: on `cS3`, whose snapshot expires within the hour, the sweep bumps the
snapshot to version 6 with the configured 7-day expiry, keeps its meta map, and cascades
to timestamp. -/
theorem bump_snapshot_in_window_witness :
    ∃ snap' ts',
      (bump_snapshot cSt cKv cNow cS3).1 = .ok true ∧
      dictGet (bump_snapshot cSt cKv cNow cS3).2.roles Snapshot.type = some snap' ∧
      dictGet (bump_snapshot cSt cKv cNow cS3).2.roles Timestamp.type = some ts' ∧
      snap'.signed = { snapNear.signed with
        version := snapNear.signed.version + 1
        expires := replaceMicrosecond cNow + daysToMicro (cSt.getFreshInt (Snapshot.type ++ "_EXPIRATION")) } ∧
      ts'.signed.version = tsDoc.signed.version + 1 ∧
      ts'.signed.snapshot_meta.version = snap'.signed.version :=
  bump_snapshot_in_window cSt cKv cNow cS3 snapNear tsDoc (by decide) (by decide) (by decide)

/-! ### Claim C7: lemmas about the bins sweep loop -/

theorem load_ok_iff (s : Storage) (n : String) (b : Metadata) :
    _load s n = .ok b ↔ dictGet s.roles n = some b := by
  unfold _load
  cases h : dictGet s.roles n <;> simp

/-- Every document in the loop's output storage is either untouched from the input storage
or is a freshly bumped version of the input document under that role name, with the same
delegations and the `bins`-class expiry. -/
theorem bumpBinsLoop_evolve (st : Settings) (kv : KeyVault) (now : Int) :
    ∀ (L : List String) (s : Storage) (r : Except PyError (List (String × Int)))
      (s₁ : Storage), bumpBinsLoop st kv now s L = (r, s₁) →
      ∀ n doc, dictGet s₁.roles n = some doc →
        dictGet s.roles n = some doc ∨
        (∃ doc₀, dictGet s.roles n = some doc₀ ∧
          doc.signed.delegations = doc₀.signed.delegations ∧
          doc.signed.expires
            = replaceMicrosecond now + daysToMicro (st.getFreshInt (BINS ++ "_EXPIRATION"))) := by
  intro L
  induction L with
  | nil =>
    intro s r s₁ h n doc hd
    have hs : s = s₁ := congrArg Prod.snd h
    rw [← hs] at hd
    exact Or.inl hd
  | cons n₀ rest ih =>
    intro s r s₁ h n doc hd
    simp only [bumpBinsLoop] at h
    cases hl : _load s n₀ with
    | error e =>
      simp only [hl] at h
      have hs : s = s₁ := congrArg Prod.snd h
      rw [← hs] at hd
      exact Or.inl hd
    | ok b =>
      simp only [hl] at h
      have hb : dictGet s.roles n₀ = some b := (load_ok_iff s n₀ b).mp hl
      by_cases hw : b.signed.expires - now < hoursToMicro st.hoursBeforeExpire
      · rw [if_pos hw] at h
        rcases hr : bumpBinsLoop st kv now
            (_persist s (_sign kv (_bump_version (_bump_expiry st now b BINS)) BINS) n₀) rest
          with ⟨rr, s₂⟩
        have hs₂ : s₂ = s₁ := by
          cases rr with
          | error e => simp only [hr] at h; exact congrArg Prod.snd h
          | ok meta => simp only [hr] at h; exact congrArg Prod.snd h
        rw [hs₂] at hr
        have hrec := ih _ rr s₁ hr n doc hd
        have hroles : (_persist s (_sign kv (_bump_version (_bump_expiry st now b BINS)) BINS) n₀).roles
            = dictSet s.roles n₀ (_sign kv (_bump_version (_bump_expiry st now b BINS)) BINS) := rfl
        rcases hrec with hrec | ⟨doc₀, hdoc₀, hdeleg, hexp⟩
        · rw [hroles] at hrec
          rcases dictGet_dictSet_cases s.roles n₀ n _ doc hrec with ⟨hn, hdoc⟩ | ⟨hn, hdoc⟩
          · right
            refine ⟨b, hn ▸ hb, ?_, ?_⟩
            · rw [hdoc]; exact rfl
            · rw [hdoc]; exact rfl
          · exact Or.inl hdoc
        · rw [hroles] at hdoc₀
          rcases dictGet_dictSet_cases s.roles n₀ n _ doc₀ hdoc₀ with ⟨hn, hdoc⟩ | ⟨hn, hdoc⟩
          · right
            refine ⟨b, hn ▸ hb, ?_, hexp⟩
            rw [hdeleg, hdoc]
            exact rfl
          · exact Or.inr ⟨doc₀, hdoc, hdeleg, hexp⟩
      · rw [if_neg hw] at h
        exact ih s r s₁ h n doc hd

/-- The loop never removes a stored role. -/
theorem bumpBinsLoop_mono (st : Settings) (kv : KeyVault) (now : Int) :
    ∀ (L : List String) (s : Storage) (r : Except PyError (List (String × Int)))
      (s₁ : Storage), bumpBinsLoop st kv now s L = (r, s₁) →
      ∀ n, (dictGet s.roles n).isSome → (dictGet s₁.roles n).isSome := by
  intro L
  induction L with
  | nil =>
    intro s r s₁ h n hn
    have hs : s = s₁ := congrArg Prod.snd h
    rw [← hs]
    exact hn
  | cons n₀ rest ih =>
    intro s r s₁ h n hn
    simp only [bumpBinsLoop] at h
    cases hl : _load s n₀ with
    | error e =>
      simp only [hl] at h
      have hs : s = s₁ := congrArg Prod.snd h
      rw [← hs]
      exact hn
    | ok b =>
      simp only [hl] at h
      by_cases hw : b.signed.expires - now < hoursToMicro st.hoursBeforeExpire
      · rw [if_pos hw] at h
        rcases hr : bumpBinsLoop st kv now
            (_persist s (_sign kv (_bump_version (_bump_expiry st now b BINS)) BINS) n₀) rest
          with ⟨rr, s₂⟩
        have hs₂ : s₂ = s₁ := by
          cases rr with
          | error e => simp only [hr] at h; exact congrArg Prod.snd h
          | ok meta => simp only [hr] at h; exact congrArg Prod.snd h
        rw [hs₂] at hr
        refine ih _ rr s₁ hr n ?_
        exact dictGet_dictSet_isSome s.roles n₀ n _ hn
      · rw [if_neg hw] at h
        exact ih s r s₁ h n hn

theorem persist_roles_self (s : Storage) (doc : Metadata) (n : String) :
    dictGet (_persist s doc n).roles n = some doc :=
  dictGet_dictSet_self s.roles n doc

theorem persist_roles_ne (s : Storage) (doc : Metadata) {n n' : String} (h : n' ≠ n) :
    dictGet (_persist s doc n).roles n' = dictGet s.roles n' :=
  dictGet_dictSet_ne s.roles h doc

/-- After a successful sweep loop, every listed role has a stored document. -/
theorem bumpBinsLoop_ok_present (st : Settings) (kv : KeyVault) (now : Int) :
    ∀ (L : List String) (s : Storage) (meta : List (String × Int)) (s₁ : Storage),
      bumpBinsLoop st kv now s L = (.ok meta, s₁) →
      ∀ n ∈ L, (dictGet s₁.roles n).isSome := by
  intro L
  induction L with
  | nil => intro s meta s₁ h n hn; exact absurd hn (List.not_mem_nil n)
  | cons n₀ rest ih =>
    intro s meta s₁ h n hn
    simp only [bumpBinsLoop] at h
    cases hl : _load s n₀ with
    | error e =>
      simp only [hl] at h
      exact Except.noConfusion (congrArg Prod.fst h)
    | ok b =>
      simp only [hl] at h
      have hb : dictGet s.roles n₀ = some b := (load_ok_iff s n₀ b).mp hl
      by_cases hw : b.signed.expires - now < hoursToMicro st.hoursBeforeExpire
      · rw [if_pos hw] at h
        rcases hr : bumpBinsLoop st kv now
            (_persist s (_sign kv (_bump_version (_bump_expiry st now b BINS)) BINS) n₀) rest
          with ⟨rr, s₂⟩
        cases rr with
        | error e =>
          simp only [hr] at h
          exact Except.noConfusion (congrArg Prod.fst h)
        | ok meta' =>
          simp only [hr] at h
          have hs₂ : s₂ = s₁ := congrArg Prod.snd h
          rw [hs₂] at hr
          rcases List.mem_cons.mp hn with rfl | hnr
          · refine bumpBinsLoop_mono st kv now rest _ _ s₁ hr n ?_
            rw [persist_roles_self]
            rfl
          · exact ih _ meta' s₁ hr n hnr
      · rw [if_neg hw] at h
        rcases List.mem_cons.mp hn with rfl | hnr
        · refine bumpBinsLoop_mono st kv now rest s _ s₁ h n ?_
          rw [hb]
          rfl
        · exact ih s meta s₁ h n hnr

/-- After a successful sweep loop, no listed role's stored document is still within the
freshness window (under the hypothesis that every configured interval exceeds the
threshold). -/
theorem bumpBinsLoop_ok_fresh (st : Settings) (kv : KeyVault) (now : Int)
    (hall : intervalsExceedThreshold st) :
    ∀ (L : List String) (s : Storage) (meta : List (String × Int)) (s₁ : Storage),
      bumpBinsLoop st kv now s L = (.ok meta, s₁) →
      ∀ n ∈ L, ∀ doc, dictGet s₁.roles n = some doc → ¬ inWindow st now doc := by
  intro L
  induction L with
  | nil => intro s meta s₁ h n hn; exact absurd hn (List.not_mem_nil n)
  | cons n₀ rest ih =>
    intro s meta s₁ h n hn doc hdoc
    simp only [bumpBinsLoop] at h
    cases hl : _load s n₀ with
    | error e =>
      simp only [hl] at h
      exact Except.noConfusion (congrArg Prod.fst h)
    | ok b =>
      simp only [hl] at h
      have hb : dictGet s.roles n₀ = some b := (load_ok_iff s n₀ b).mp hl
      by_cases hw : b.signed.expires - now < hoursToMicro st.hoursBeforeExpire
      · rw [if_pos hw] at h
        rcases hr : bumpBinsLoop st kv now
            (_persist s (_sign kv (_bump_version (_bump_expiry st now b BINS)) BINS) n₀) rest
          with ⟨rr, s₂⟩
        cases rr with
        | error e =>
          simp only [hr] at h
          exact Except.noConfusion (congrArg Prod.fst h)
        | ok meta' =>
          simp only [hr] at h
          have hs₂ : s₂ = s₁ := congrArg Prod.snd h
          rw [hs₂] at hr
          rcases List.mem_cons.mp hn with rfl | hnr
          · rcases bumpBinsLoop_evolve st kv now rest _ _ s₁ hr n doc hdoc
              with hleft | ⟨doc₀, _, _, hexp⟩
            · rw [persist_roles_self] at hleft
              have hdb : doc = _sign kv (_bump_version (_bump_expiry st now b BINS)) BINS :=
                (Option.some.inj hleft).symm
              refine fresh_not_in_window st now doc hall ⟨BINS, ?_⟩
              rw [hdb]
              exact rfl
            · exact fresh_not_in_window st now doc hall ⟨BINS, hexp⟩
          · exact ih _ meta' s₁ hr n hnr doc hdoc
      · rw [if_neg hw] at h
        rcases List.mem_cons.mp hn with rfl | hnr
        · rcases bumpBinsLoop_evolve st kv now rest s _ s₁ h n doc hdoc
            with hleft | ⟨doc₀, _, _, hexp⟩
          · have hbd : b = doc := Option.some.inj (hb.symm.trans hleft)
            rw [← hbd]
            exact hw
          · exact fresh_not_in_window st now doc hall ⟨BINS, hexp⟩
        · exact ih s meta s₁ h n hnr doc hdoc

/-- A sweep loop that raised leaves a state on which rerunning it raises identically,
performing no further writes. -/
theorem bumpBinsLoop_error_idem (st : Settings) (kv : KeyVault) (now : Int)
    (hall : intervalsExceedThreshold st) :
    ∀ (L : List String) (s : Storage) (e : PyError) (s₁ : Storage),
      bumpBinsLoop st kv now s L = (.error e, s₁) →
      bumpBinsLoop st kv now s₁ L = (.error e, s₁) := by
  intro L
  induction L with
  | nil =>
    intro s e s₁ h
    exact Except.noConfusion (congrArg Prod.fst h)
  | cons n₀ rest ih =>
    intro s e s₁ h
    simp only [bumpBinsLoop] at h
    cases hl : _load s n₀ with
    | error e2 =>
      simp only [hl] at h
      have he : e2 = e := Except.error.inj (congrArg Prod.fst h)
      have hs : s = s₁ := congrArg Prod.snd h
      rw [← hs, ← he]
      simp only [bumpBinsLoop, hl]
    | ok b =>
      simp only [hl] at h
      have hb : dictGet s.roles n₀ = some b := (load_ok_iff s n₀ b).mp hl
      by_cases hw : b.signed.expires - now < hoursToMicro st.hoursBeforeExpire
      · rw [if_pos hw] at h
        rcases hr : bumpBinsLoop st kv now
            (_persist s (_sign kv (_bump_version (_bump_expiry st now b BINS)) BINS) n₀) rest
          with ⟨rr, s₂⟩
        cases rr with
        | ok meta =>
          simp only [hr] at h
          exact Except.noConfusion (congrArg Prod.fst h)
        | error e2 =>
          simp only [hr] at h
          have he : e2 = e := Except.error.inj (congrArg Prod.fst h)
          have hs : s₂ = s₁ := congrArg Prod.snd h
          rw [he, hs] at hr
          have hIH := ih _ e s₁ hr
          have hpres : (dictGet s₁.roles n₀).isSome := by
            refine bumpBinsLoop_mono st kv now rest _ _ s₁ hr n₀ ?_
            rw [persist_roles_self]
            rfl
          obtain ⟨d, hd⟩ := Option.isSome_iff_exists.mp hpres
          have hnw : ¬ inWindow st now d := by
            rcases bumpBinsLoop_evolve st kv now rest _ _ s₁ hr n₀ d hd
              with hleft | ⟨doc₀, _, _, hexp⟩
            · rw [persist_roles_self] at hleft
              have hdd : d = _sign kv (_bump_version (_bump_expiry st now b BINS)) BINS :=
                (Option.some.inj hleft).symm
              refine fresh_not_in_window st now d hall ⟨BINS, ?_⟩
              rw [hdd]
              exact rfl
            · exact fresh_not_in_window st now d hall ⟨BINS, hexp⟩
          have hnw' : ¬ (d.signed.expires - now < hoursToMicro st.hoursBeforeExpire) := hnw
          have hld : _load s₁ n₀ = .ok d := (load_ok_iff s₁ n₀ d).mpr hd
          simp only [bumpBinsLoop, hld]
          rw [if_neg hnw']
          exact hIH
      · rw [if_neg hw] at h
        have hIH := ih s e s₁ h
        have hpres : (dictGet s₁.roles n₀).isSome := by
          refine bumpBinsLoop_mono st kv now rest s _ s₁ h n₀ ?_
          rw [hb]
          rfl
        obtain ⟨d, hd⟩ := Option.isSome_iff_exists.mp hpres
        have hnw : ¬ inWindow st now d := by
          rcases bumpBinsLoop_evolve st kv now rest s _ s₁ h n₀ d hd
            with hleft | ⟨doc₀, _, _, hexp⟩
          · have hbd : b = d := Option.some.inj (hb.symm.trans hleft)
            rw [← hbd]
            exact hw
          · exact fresh_not_in_window st now d hall ⟨BINS, hexp⟩
        have hnw' : ¬ (d.signed.expires - now < hoursToMicro st.hoursBeforeExpire) := hnw
        have hld : _load s₁ n₀ = .ok d := (load_ok_iff s₁ n₀ d).mpr hd
        simp only [bumpBinsLoop, hld]
        rw [if_neg hnw']
        exact hIH

/-- On a state where every listed role is stored and outside the freshness window, the
sweep loop bumps nothing and leaves the storage untouched. -/
theorem bumpBinsLoop_noop (st : Settings) (kv : KeyVault) (now : Int) :
    ∀ (L : List String) (t : Storage),
      (∀ n ∈ L, ∃ doc, dictGet t.roles n = some doc ∧ ¬ inWindow st now doc) →
      bumpBinsLoop st kv now t L = (.ok [], t) := by
  intro L
  induction L with
  | nil => intro t _; rfl
  | cons n₀ rest ih =>
    intro t H
    obtain ⟨doc, hd, hnw⟩ := H n₀ (List.mem_cons_self n₀ rest)
    have hnw' : ¬ (doc.signed.expires - now < hoursToMicro st.hoursBeforeExpire) := hnw
    have hld : _load t n₀ = .ok doc := (load_ok_iff t n₀ doc).mpr hd
    simp only [bumpBinsLoop, hld]
    rw [if_neg hnw']
    exact ih t fun n hn => H n (List.mem_cons_of_mem n₀ hn)

/-- On a state whose delegated bins are all stored and outside the freshness window, the
whole sweep is a no-op returning `True`. -/
theorem bump_bins_roles_noop_core (st : Settings) (kv : KeyVault) (now : Int) (t : Storage)
    (bin1 : Metadata) (d : DelegationsModel)
    (hbin : dictGet t.roles BIN = some bin1) (hdel : bin1.signed.delegations = some d)
    (H : ∀ n ∈ d.succinct_roles.roles,
      ∃ doc, dictGet t.roles n = some doc ∧ ¬ inWindow st now doc) :
    bump_bins_roles st kv now t = (.ok true, t) := by
  have hld : _load t BIN = .ok bin1 := (load_ok_iff t BIN bin1).mpr hbin
  have hloop := bumpBinsLoop_noop st kv now d.succinct_roles.roles t H
  simp only [bump_bins_roles, hld, hdel, hloop, List.length_nil]
  norm_num

/-- C7: when every configured expiration interval strictly exceeds the freshness
threshold, running the bins-expiry sweep twice in immediate succession with no time
passing performs zero bumps on the second run: the second run returns the storage exactly
as the first run left it, so no bin, snapshot, or timestamp document is modified or
persisted the second time. -/
theorem bump_bins_roles_idem (st : Settings) (kv : KeyVault) (now : Int) (s : Storage)
    (hall : intervalsExceedThreshold st) :
    (bump_bins_roles st kv now (bump_bins_roles st kv now s).2).2
      = (bump_bins_roles st kv now s).2 := by
  cases hl : _load s BIN with
  | error e =>
    cases e with
    | storageError =>
      have h1 : bump_bins_roles st kv now s = (.ok false, s) := by
        simp only [bump_bins_roles, hl]
      have h2 : (bump_bins_roles st kv now s).2 = s := by rw [h1]
      rw [h2]
      exact h2
    | keyError =>
      have h1 : bump_bins_roles st kv now s = (.error .keyError, s) := by
        simp only [bump_bins_roles, hl]
      have h2 : (bump_bins_roles st kv now s).2 = s := by rw [h1]
      rw [h2]
      exact h2
    | attributeError =>
      have h1 : bump_bins_roles st kv now s = (.error .attributeError, s) := by
        simp only [bump_bins_roles, hl]
      have h2 : (bump_bins_roles st kv now s).2 = s := by rw [h1]
      rw [h2]
      exact h2
  | ok bin =>
    have hbin : dictGet s.roles BIN = some bin := (load_ok_iff s BIN bin).mp hl
    cases hdel : bin.signed.delegations with
    | none =>
      have h1 : bump_bins_roles st kv now s = (.error .attributeError, s) := by
        simp only [bump_bins_roles, hl, hdel]
      have h2 : (bump_bins_roles st kv now s).2 = s := by rw [h1]
      rw [h2]
      exact h2
    | some d =>
      rcases hloop : bumpBinsLoop st kv now s d.succinct_roles.roles with ⟨rr, s₁⟩
      have hpres : (dictGet s₁.roles BIN).isSome := by
        refine bumpBinsLoop_mono st kv now _ s _ s₁ hloop BIN ?_
        rw [hbin]
        rfl
      obtain ⟨bin1, hbin1⟩ := Option.isSome_iff_exists.mp hpres
      have hdel1 : bin1.signed.delegations = some d := by
        rcases bumpBinsLoop_evolve st kv now _ s _ s₁ hloop BIN bin1 hbin1
          with hleft | ⟨doc₀, hdoc₀, hdeleg, _⟩
        · have hbb : bin = bin1 := Option.some.inj (hbin.symm.trans hleft)
          rw [← hbb]
          exact hdel
        · have hbb : bin = doc₀ := Option.some.inj (hbin.symm.trans hdoc₀)
          rw [hdeleg, ← hbb]
          exact hdel
      cases rr with
      | error e =>
        have h1 : bump_bins_roles st kv now s = (.error e, s₁) := by
          simp only [bump_bins_roles, hl, hdel, hloop]
        have h2 : (bump_bins_roles st kv now s).2 = s₁ := by rw [h1]
        rw [h2]
        have hld1 : _load s₁ BIN = .ok bin1 := (load_ok_iff s₁ BIN bin1).mpr hbin1
        have hloop2 := bumpBinsLoop_error_idem st kv now hall _ s e s₁ hloop
        have h3 : bump_bins_roles st kv now s₁ = (.error e, s₁) := by
          simp only [bump_bins_roles, hld1, hdel1, hloop2]
        rw [h3]
      | ok meta =>
        by_cases hlen : meta.length > 0
        · have Hs₁ : ∀ n ∈ d.succinct_roles.roles,
              ∃ doc', dictGet s₁.roles n = some doc' ∧ ¬ inWindow st now doc' := by
            intro n hn
            obtain ⟨doc', hd'⟩ := Option.isSome_iff_exists.mp
              (bumpBinsLoop_ok_present st kv now _ s meta s₁ hloop n hn)
            exact ⟨doc', hd',
              bumpBinsLoop_ok_fresh st kv now hall _ s meta s₁ hloop n hn doc' hd'⟩
          rcases hu : _update_snapshot st kv now s₁ meta with ⟨ru, s₂⟩
          cases ru with
          | error e =>
            rcases update_snapshot_shape st kv now s₁ meta
              with ⟨hnone, heq⟩ | ⟨snap0, doc, hget, hok, hsigned, _⟩
            · have hcomb := heq.symm.trans hu
              have hs₂ : s₁ = s₂ := congrArg Prod.snd hcomb
              have h1 : bump_bins_roles st kv now s = (.error e, s₂) := by
                simp only [bump_bins_roles, hl, hdel, hloop, if_pos hlen, hu]
              have h2 : (bump_bins_roles st kv now s).2 = s₂ := by rw [h1]
              rw [h2, ← hs₂]
              have hcore := bump_bins_roles_noop_core st kv now s₁ bin1 d hbin1 hdel1 Hs₁
              rw [hcore]
            · have hcomb := hok.symm.trans hu
              exact Except.noConfusion (congrArg Prod.fst hcomb)
          | ok v =>
            rcases update_snapshot_shape st kv now s₁ meta
              with ⟨hnone, heq⟩ | ⟨snap0, doc, hget, hok, hsigned, _⟩
            · have hcomb := heq.symm.trans hu
              exact Except.noConfusion (congrArg Prod.fst hcomb)
            · have hcomb := hok.symm.trans hu
              have hs₂ : _persist s₁ doc Snapshot.type = s₂ := congrArg Prod.snd hcomb
              have hdocfresh : ¬ inWindow st now doc :=
                fresh_not_in_window st now doc hall ⟨Snapshot.type, by rw [hsigned]⟩
              have hbin2 : dictGet s₂.roles BIN = some bin1 := by
                rw [← hs₂, persist_roles_ne s₁ doc (by decide)]
                exact hbin1
              have Hs₂ : ∀ n ∈ d.succinct_roles.roles,
                  ∃ doc', dictGet s₂.roles n = some doc' ∧ ¬ inWindow st now doc' := by
                intro n hn
                by_cases hns : n = Snapshot.type
                · subst hns
                  refine ⟨doc, ?_, hdocfresh⟩
                  rw [← hs₂, persist_roles_self]
                · obtain ⟨doc', hd', hnw'⟩ := Hs₁ n hn
                  refine ⟨doc', ?_, hnw'⟩
                  rw [← hs₂, persist_roles_ne s₁ doc hns]
                  exact hd'
              rcases hu2 : _update_timestamp st kv now s₂ v with ⟨ru2, s₃⟩
              cases ru2 with
              | error e2 =>
                rcases update_timestamp_shape st kv now s₂ v
                  with ⟨hnone2, heq2⟩ | ⟨ts0, doc2, hget2, hok2, hsigned2, _⟩
                · have hcomb2 := heq2.symm.trans hu2
                  have hs₃ : s₂ = s₃ := congrArg Prod.snd hcomb2
                  have h1 : bump_bins_roles st kv now s = (.error e2, s₃) := by
                    simp only [bump_bins_roles, hl, hdel, hloop, if_pos hlen, hu, hu2]
                  have h2 : (bump_bins_roles st kv now s).2 = s₃ := by rw [h1]
                  rw [h2, ← hs₃]
                  have hcore := bump_bins_roles_noop_core st kv now s₂ bin1 d hbin2 hdel1 Hs₂
                  rw [hcore]
                · have hcomb2 := hok2.symm.trans hu2
                  exact Except.noConfusion (congrArg Prod.fst hcomb2)
              | ok ts =>
                rcases update_timestamp_shape st kv now s₂ v
                  with ⟨hnone2, heq2⟩ | ⟨ts0, doc2, hget2, hok2, hsigned2, _⟩
                · have hcomb2 := heq2.symm.trans hu2
                  exact Except.noConfusion (congrArg Prod.fst hcomb2)
                · have hcomb2 := hok2.symm.trans hu2
                  have hs₃ : _persist s₂ doc2 Timestamp.type = s₃ := congrArg Prod.snd hcomb2
                  have hdoc2fresh : ¬ inWindow st now doc2 :=
                    fresh_not_in_window st now doc2 hall ⟨Timestamp.type, by rw [hsigned2]⟩
                  have hbin3 : dictGet s₃.roles BIN = some bin1 := by
                    rw [← hs₃, persist_roles_ne s₂ doc2 (by decide)]
                    exact hbin2
                  have Hs₃ : ∀ n ∈ d.succinct_roles.roles,
                      ∃ doc', dictGet s₃.roles n = some doc' ∧ ¬ inWindow st now doc' := by
                    intro n hn
                    by_cases hnt : n = Timestamp.type
                    · subst hnt
                      refine ⟨doc2, ?_, hdoc2fresh⟩
                      rw [← hs₃, persist_roles_self]
                    · obtain ⟨doc', hd', hnw'⟩ := Hs₂ n hn
                      refine ⟨doc', ?_, hnw'⟩
                      rw [← hs₃, persist_roles_ne s₂ doc2 hnt]
                      exact hd'
                  have h1 : bump_bins_roles st kv now s = (.ok true, s₃) := by
                    simp only [bump_bins_roles, hl, hdel, hloop, if_pos hlen, hu, hu2]
                  have h2 : (bump_bins_roles st kv now s).2 = s₃ := by rw [h1]
                  rw [h2]
                  have hcore := bump_bins_roles_noop_core st kv now s₃ bin1 d hbin3 hdel1 Hs₃
                  rw [hcore]
        · have hmeta : meta = [] := List.length_eq_zero.mp (Nat.eq_zero_of_not_pos hlen)
          rw [hmeta] at hloop
          have hs₁ : s₁ = s := bumpBinsLoop_nil_noop st kv now _ s s₁ hloop
          rw [hs₁] at hloop
          have h1 : bump_bins_roles st kv now s = (.ok true, s) := by
            simp only [bump_bins_roles, hl, hdel, hloop, List.length_nil]
            norm_num
          have h2 : (bump_bins_roles st kv now s).2 = s := by rw [h1]
          rw [h2]
          exact h2

/-- Witness for C7: with 7-day intervals and a 1-hour threshold, sweeping `cS2` (whose
`bins-a` is within the window, so the first run bumps it and propagates) and sweeping again
at the same instant leaves the storage exactly as the first run left it. -/
theorem bump_bins_roles_idem_witness :
    intervalsExceedThreshold cSt ∧
      (bump_bins_roles cSt cKv cNow (bump_bins_roles cSt cKv cNow cS2).2).2
        = (bump_bins_roles cSt cKv cNow cS2).2 :=
  ⟨fun _ => by norm_num [cSt, hoursToMicro, daysToMicro],
    bump_bins_roles_idem cSt cKv cNow cS2
      (fun _ => by norm_num [cSt, hoursToMicro, daysToMicro])⟩

end RepoWorker
